import Mathlib

/-!
Verification development for the change-tracking document ODM in `core.py`.

The file shallowly embeds the parts of the source the claims depend on:

* the JSON-like value universe handled by field codecs (`Scalar`, `Val`),
* scalar and container field descriptors (`FieldD`, from `Field` and
  `FieldWithContainer` with the default identity converters),
* the change compiler (`CM`, from `CommandMaker`): its staged-operation
  records, its leaf iteration (`_iter_leaves`) and the scope-exit
  compilation (`__aexit__`),
* path resolution on the document graph (`NNode`, from
  `NiceNesting.route_prefix` / `NiceDocument.route_prefix`),
* shallow copying of field defaults over an explicit heap (from
  `FieldBase.default`, which applies `copy.copy`),
* the identity cache (`NCol`, from `NiceCollection`).

Machine state that Python keeps implicitly (the live attribute graph, the
heap of container objects, wall-clock time, the store's responses) is passed
explicitly.
-/

set_option autoImplicit false

namespace MongoOdm

/-- Atomic JSON-like values: Python `None`, booleans, integers, strings. -/
inductive Scalar where
  | none
  | bool (b : Bool)
  | int (n : Int)
  | str (s : String)
deriving DecidableEq, Repr

/-- A value held by a document attribute or carried on the wire: an atomic
value or a list of atomic values (the container shapes the properties below
exercise). -/
inductive Val where
  | sc (s : Scalar)
  | list (l : List Scalar)
deriving DecidableEq, Repr

/-- Python `None` as a `Val`. -/
def vnone : Val := .sc .none

/-- An integer as a `Val`. -/
def vint (n : Int) : Val := .sc (.int n)

/-- A string as a `Val`. -/
def vstr (s : String) : Val := .sc (.str s)

/-- Python `+` on the value kinds the development exercises: integer
addition and string concatenation (the source's increment path applies the
live value's own `+`). -/
def vadd : Val → Val → Val
  | .sc (.int a), .sc (.int b) => .sc (.int (a + b))
  | .sc (.str a), .sc (.str b) => .sc (.str (a ++ b))
  | a, _ => a

/-- Field descriptor kinds: a scalar `Field` with a default value, or a
list-kind `FieldWithContainer` (whose default is the empty container). Both
are taken with their default identity element converters, as in the source
when `from_raw`/`to_raw` arguments are omitted. -/
inductive FieldKind where
  | scalar (dflt : Val)
  | contList
deriving DecidableEq, Repr

/-- A field descriptor: its kind and its optional wire-name override
(`alias_for`, stored as `real_name` in the source). -/
structure FieldD where
  kind : FieldKind
  realName : Option String
deriving DecidableEq, Repr

/-- Models `FieldBase.default` at the level of values: the default of a
scalar field, or the empty list for a container field. (The copying
behaviour of the source's `copy(self._default)` is modelled separately on
the heap, see `copyShallow`.) -/
def FieldD.dflt : FieldD → Val
  | ⟨.scalar d, _⟩ => d
  | ⟨.contList, _⟩ => .list []

/-- Models `Field.to_raw` (and `FieldWithContainer.to_raw`) with identity
converters: a scalar value equal to the default serializes to `None`; a
container serializes to itself. -/
def FieldD.toRaw : FieldD → Val → Val
  | ⟨.scalar d, _⟩, v => if v = d then vnone else v
  | ⟨.contList, _⟩, v => v

/-- Python's `a or b` on an optional string `a`: `None` and the empty
string are falsy and fall through to `b`. Used for `field.real_name or
magic._name` and `self._alias or self._name`. -/
def pyOr (a : Option String) (b : String) : String :=
  match a with
  | some s => if s = "" then b else s
  | Option.none => b

/-- The staged replacement slot of a `CommandMaker`: `missing` models the
`MISSING` sentinel (nothing assigned), `clear` models an assigned `Ellipsis`
(the explicit clear sentinel), `val v` an assigned value. -/
inductive StagedVal where
  | missing
  | clear
  | val (v : Val)
deriving DecidableEq, Repr

/-- The per-proxy staged operations of a `CommandMaker`:
`_value`, `_to_inc`, `_to_add`, `_to_remove`. (The map-item operations
`_to_update`/`_to_pop` are not exercised by the properties below.) -/
structure LeafOps where
  value : StagedVal
  toInc : Option Val
  toAdd : List Scalar
  toRemove : List Scalar
deriving DecidableEq, Repr

/-- A proxy with nothing staged, as freshly created by `__getattr__`. -/
def emptyOps : LeafOps := ⟨.missing, Option.none, [], []⟩

/-- Models `CommandMaker.__iadd__`: it overwrites `_to_inc` with the new
delta (it does not accumulate). -/
def LeafOps.iadd (ops : LeafOps) (v : Val) : LeafOps :=
  { ops with toInc := some v }

/-- A `CommandMaker` proxy tree: the proxied attribute's name, the
identifier of the live node owning that attribute (`_underlying_owner`),
the staged operations, and the child proxies (`_pseudo_attrs` followed by
`_pseudo_nestings`, in the order `_iter_leaves` chains them). -/
inductive CM where
  | mk (name : String) (owner : Nat) (ops : LeafOps) (children : List CM)

/-- The staged operations of a proxy. -/
def CM.ops : CM → LeafOps
  | .mk _ _ ops _ => ops

/-- The child proxies of a proxy. -/
def CM.children : CM → List CM
  | .mk _ _ _ children => children

/-- The live document graph: an assignment of values to the attributes
(node identifier, attribute name) that the scope touches. -/
abbrev Graph := List ((Nat × String) × Val)

/-- Reads an attribute of a live node, as `getattr` does in `__aexit__`. -/
def getAttr (g : Graph) (o : Nat) (n : String) : Val :=
  (g.lookup (o, n)).getD vnone

/-- Python-dict style insertion: replaces the value at an existing key in
place, appends a fresh key at the end. -/
def dinsert {α : Type} (l : List (String × α)) (k : String) (v : α) :
    List (String × α) :=
  if l.any (fun p => p.1 = k) then
    l.map (fun p => if p.1 = k then (k, v) else p)
  else l ++ [(k, v)]

/-- `defaultdict(list)`-style extension used for the `adders` and
`removers` buckets. -/
def dextend (l : List (String × List Scalar)) (k : String)
    (vs : List Scalar) : List (String × List Scalar) :=
  if l.any (fun p => p.1 = k) then
    l.map (fun p => if p.1 = k then (p.1, p.2 ++ vs) else p)
  else l ++ [(k, vs)]

/-- Writes an attribute of a live node, as `setattr` does in `__aexit__`. -/
def setAttr (g : Graph) (o : Nat) (n : String) (v : Val) : Graph :=
  if g.any (fun p => p.1 = (o, n)) then
    g.map (fun p => if p.1 = (o, n) then ((o, n), v) else p)
  else g ++ [((o, n), v)]

/-- Removes the first occurrence of `x`, as Python's `list.remove`;
`none` when `x` is absent (the source raises `ValueError` there). -/
def listRemoveFirst (x : Scalar) : List Scalar → Option (List Scalar)
  | [] => Option.none
  | y :: ys =>
    if y = x then some ys
    else (listRemoveFirst x ys).map (fun r => y :: r)

/-- Removes each element of `els` in turn from `l` (first occurrences),
failing as soon as one is absent. -/
def removeAll (l : List Scalar) : List Scalar → Option (List Scalar)
  | [] => some l
  | e :: es =>
    match listRemoveFirst e l with
    | some l2 => removeAll l2 es
    | Option.none => Option.none

/-- The schema environment a scope runs against: the field descriptor
declared for each (owner, attribute) pair, and each owner's memoized
route prefix (the value of `route_prefix` on the owning live node). -/
structure Env where
  fieldOf : Nat → String → FieldD
  pref : Nat → String

/-- Compilation state threaded through the leaf loop of `__aexit__`: the
live graph plus the four route-keyed operator buckets. -/
structure CompState where
  graph : Graph
  setters : List (String × Val)
  unsetters : List (String × String)
  adders : List (String × List Scalar)
  removers : List (String × List Scalar)
deriving DecidableEq, Repr

/-- Models the body of the per-leaf loop in `CommandMaker.__aexit__`:
clear/replace first, then increment (recomputed from the just-updated
attribute), then container additions, then container removals. A failing
removal aborts the leaf with the error; the source applies removals one by
one, but no property below observes the graph after such a failure. -/
def applyLeaf (env : Env) (st : CompState) (leaf : CM) :
    Except String CompState :=
  match leaf with
  | .mk name owner ops _ =>
    let f := env.fieldOf owner name
    let route := env.pref owner ++ pyOr f.realName name
    let st :=
      match ops.value with
      | .clear =>
          { st with unsetters := dinsert st.unsetters route "",
                    graph := setAttr st.graph owner name f.dflt }
      | .val v =>
          { st with setters := dinsert st.setters route (f.toRaw v),
                    graph := setAttr st.graph owner name v }
      | .missing => st
    let st :=
      match ops.toInc with
      | some d =>
          let nv := vadd (getAttr st.graph owner name) d
          { st with setters := dinsert st.setters route (f.toRaw nv),
                    graph := setAttr st.graph owner name nv }
      | Option.none => st
    let st :=
      match ops.toAdd with
      | [] => st
      | els =>
          let st2 := { st with adders := dextend st.adders route els }
          match getAttr st2.graph owner name with
          | .list l =>
              { st2 with graph := setAttr st2.graph owner name (.list (l ++ els)) }
          | _ => st2
    match ops.toRemove with
    | [] => .ok st
    | els =>
        let st2 := { st with removers := dextend st.removers route els }
        match getAttr st2.graph owner name with
        | .list l =>
            match removeAll l els with
            | some l2 =>
                .ok { st2 with graph := setAttr st2.graph owner name (.list l2) }
            | Option.none => .error "ValueError: list.remove(x): x not in list"
        | _ => .error "AttributeError: remove"

mutual
/-- Treatment of one proxy inside the loop of `CommandMaker._iter_leaves`:
a proxy with child proxies yields the leaves of its own subtree
(`yield from magic._iter_leaves()`), a childless proxy is yielded itself. -/
def iterLeavesFrom : CM → List CM
  | .mk n o ops [] => [.mk n o ops []]
  | .mk _ _ _ (c :: cs) => iterLeavesList (c :: cs)

/-- Models `CommandMaker._iter_leaves` run over a list of child proxies
(the chain of `_pseudo_attrs` and `_pseudo_nestings`). -/
def iterLeavesList : List CM → List CM
  | [] => []
  | c :: cs => iterLeavesFrom c ++ iterLeavesList cs
end

/-- Models `self._iter_leaves()` on the scope's root proxy: it walks the
root's children; the root itself is never yielded. -/
def iterLeaves (cm : CM) : List CM :=
  iterLeavesList cm.children

/-- Runs the leaf loop over a list of leaves, stopping at the first error
(which `__aexit__` lets propagate before any command is built). -/
def compileList (env : Env) : List CM → CompState → CompState × Option String
  | [], st => (st, Option.none)
  | l :: ls, st =>
    match applyLeaf env st l with
    | .ok st2 => compileList env ls st2
    | .error e => (st, some e)

/-- A single-or-batch operand, modelling the source's collapsing of
one-element buckets (`value[0]` versus the batch forms keyed by `$each`
and `$in`). -/
inductive Operand where
  | single (v : Scalar)
  | batch (vs : List Scalar)
deriving DecidableEq, Repr

/-- Collapses a route's bucket: a single staged element stays bare, more
than one is wrapped in a batch operand. -/
def collapse (vs : List Scalar) : Operand :=
  if vs.length > 1 then .batch vs else .single (vs.headD .none)

/-- The assembled update command; an empty list models an absent section. -/
structure MongoCmd where
  set : List (String × Val)
  unset : List (String × String)
  addToSet : List (String × Operand)
  pull : List (String × Operand)
deriving DecidableEq, Repr

/-- Assembles the `mongo_command` dict from the four buckets. -/
def buildCmd (st : CompState) : MongoCmd :=
  ⟨st.setters, st.unsetters,
   st.adders.map (fun p => (p.1, collapse p.2)),
   st.removers.map (fun p => (p.1, collapse p.2))⟩

/-- True when no section of the command is present (`if not mongo_command`). -/
def cmdIsEmpty (c : MongoCmd) : Bool :=
  c.set.isEmpty && c.unset.isEmpty && c.addToSet.isEmpty && c.pull.isEmpty

/-- The `upsert` flag computed in `__aexit__`: set exactly when the
`setters` or `adders` bucket is non-empty. -/
def upsertOf (st : CompState) : Bool :=
  !st.setters.isEmpty || !st.adders.isEmpty

/-- The observable outcome of `CommandMaker.__aexit__`: the live graph
afterwards, the update command sent to the store together with its upsert
flag (`none` when no `update_one` call was attempted), and the exception
propagating out of the scope, if any. -/
structure AexitResult where
  graph : Graph
  sent : Option (MongoCmd × Bool)
  raised : Option String
deriving DecidableEq, Repr

/-- Models `CommandMaker.__aexit__`. `exc` is the exception the scope body
raised (if any); `storeResult` is the store's response to the single
`update_one` call, consulted only if that call is reached. The method
returns `None`, so any exception it sees or meets propagates: `raised`
records it. -/
def aexit (exc : Option String) (cm : CM) (env : Env) (g : Graph)
    (storeResult : Except String Unit) : AexitResult :=
  match exc with
  | some e => ⟨g, Option.none, some e⟩
  | Option.none =>
    match compileList env (iterLeaves cm) ⟨g, [], [], [], []⟩ with
    | (st, some e) => ⟨st.graph, Option.none, some e⟩
    | (st, Option.none) =>
      let cmd := buildCmd st
      if cmdIsEmpty cmd then ⟨st.graph, Option.none, Option.none⟩
      else
        match storeResult with
        | .ok _ => ⟨st.graph, some (cmd, upsertOf st), Option.none⟩
        | .error e => ⟨st.graph, some (cmd, upsertOf st), some e⟩

/-! ## Path resolution on the document graph -/

/-- A document-graph node as far as path resolution is concerned: the root
document (`NiceDocument`), an unattached nesting (`_parent is None`), or a
nesting attached under a parent node, with its mount name (`_name`) and
optional wire-name alias (`_alias`). -/
inductive NNode where
  | document
  | orphanNesting (attrName : String) (aliasOpt : Option String)
  | childNesting (parent : NNode) (attrName : String) (aliasOpt : Option String)

/-- Models `NiceNesting.mongo_name`: `self._alias or self._name`. -/
def NNode.wireName : NNode → String
  | .document => ""
  | .orphanNesting n a => pyOr a n
  | .childNesting _ n a => pyOr a n

/-- Models `route_prefix`: the root document reports `""`
(`NiceDocument.route_prefix`); a nesting under the root reports its wire
name plus a dot; a nesting under another nesting prepends the parent's
route prefix (propagating any failure from the parent's computation); a
nesting with no parent raises `ValueError`. -/
def routePref : NNode → Except String String
  | .document => .ok ""
  | .orphanNesting n _ => .error ("Invalid parent type of " ++ n)
  | .childNesting .document n a => .ok (pyOr a n ++ ".")
  | .childNesting (.orphanNesting m b) _ _ =>
      match routePref (.orphanNesting m b) with
      | .ok _ => .error "unreachable"
      | .error e => .error e
  | .childNesting (.childNesting p m b) n a =>
      match routePref (.childNesting p m b) with
      | .ok pp => .ok (pp ++ pyOr a n ++ ".")
      | .error e => .error e

/-- Models the synthetic alias `FieldWithNestings.from_raw` gives each
child node: `f"{self.real_name or attr_name}.{k}"`. -/
def nestingChildAlias (realName : Option String) (attrName : String)
    (key : String) : String :=
  pyOr realName attrName ++ "." ++ key

/-- The dotted path of a plain field mounted on a node, as `__aexit__`
computes it: the owner's route prefix followed by the field's wire name
(`field.real_name or magic._name`). -/
def leafRoute (node : NNode) (fieldRealName : Option String)
    (attrName : String) : Except String String :=
  match routePref node with
  | .ok pp => .ok (pp ++ pyOr fieldRealName attrName)
  | .error e => .error e

/-! ## Shallow copying of field defaults

Python's `copy.copy`, as invoked by `FieldBase.default`, copies only the
top-level container: the new container holds the very same element
objects. To speak about object identity the development uses an explicit
heap of cells addressed by natural numbers. -/

/-- A heap cell: an immutable atom, or a container holding references to
its elements. -/
inductive Cell where
  | prim (s : Scalar)
  | container (elems : List Nat)
deriving DecidableEq, Repr

/-- A heap: cell `a` lives at index `a`; allocation appends. -/
abbrev Heap := List Cell

/-- Models `copy.copy(x)`: a container is copied into a fresh cell holding
the same element references; an immutable atom is returned unchanged. -/
def copyShallow (h : Heap) (a : Nat) : Heap × Nat :=
  match h[a]? with
  | some (Cell.container elems) => (h ++ [Cell.container elems], h.length)
  | _ => (h, a)

/-- Models `FieldBase.default`: every read of the property returns
`copy(self._default)`. -/
def defaultRef (h : Heap) (defaultAddr : Nat) : Heap × Nat :=
  copyShallow h defaultAddr

/-- Models `Field.from_raw` on an absent wire value (`value is None`):
it returns `self.default`, hence a shallow copy of the stored default.
`NiceDocument.minimal` reads the same property for every plain field. -/
def fromRawAbsentRef (h : Heap) (defaultAddr : Nat) : Heap × Nat :=
  defaultRef h defaultAddr

/-- The container cells reachable from address `a` (including `a` itself
when it is a container), to the given depth. -/
def reachContainers (h : Heap) : Nat → Nat → List Nat
  | 0, _ => []
  | fuel + 1, a =>
    match h[a]? with
    | some (Cell.container elems) =>
        a :: elems.flatMap (reachContainers h fuel)
    | _ => []

/-! ## The identity cache -/

/-- The cache bookkeeping of a `NiceCollection`: for each cached document
identifier its `_last_used_at` timestamp, the `cache_lifetime` policy
(`none` = never expire, `0` = never cache, positive = seconds to live), and
`_last_cache_check`. Times are integers standing in for the float clock;
the source only compares and subtracts them. -/
structure NCol where
  cache : List (String × Int)
  cacheLifetime : Option Int
  lastCacheCheck : Int
deriving DecidableEq, Repr

/-- Models `NiceCollection._verify_cache_integrity` at time `now`: a falsy
lifetime (`None` or `0`) disables the sweep; fewer than 60 time-units since
the previous check skip it; otherwise every entry unused for more than the
lifetime is evicted and the check timestamp is advanced. -/
def verifyCacheIntegrity (now : Int) (c : NCol) : NCol :=
  match c.cacheLifetime with
  | Option.none => c
  | some lt =>
    if lt = 0 then c
    else if now - c.lastCacheCheck < 60 then c
    else
      ⟨c.cache.filter (fun p => ¬ (now - p.2 > lt)), some lt, now⟩

/-- Refreshes `_last_used_at` of a cached document. -/
def touchCache (cache : List (String × Int)) (id : String) (now : Int) :
    List (String × Int) :=
  cache.map (fun p => if p.1 = id then (p.1, now) else p)

/-- Models the cache bookkeeping of `NiceCollection.find` at time `now`:
on a hit, refresh the document's use time and run the sweep; on a miss, run
the sweep, construct the document (its `_last_used_at` is `now`) and cache
it unless the lifetime policy is a non-positive number. The store round
trip does not affect the bookkeeping (a missing record is constructed as an
empty document with the same identifier). -/
def NCol.find (c : NCol) (now : Int) (id : String) : NCol :=
  if (c.cache.lookup id).isSome then
    verifyCacheIntegrity now { c with cache := touchCache c.cache id now }
  else
    let c2 := verifyCacheIntegrity now c
    match c2.cacheLifetime with
    | Option.none => { c2 with cache := c2.cache ++ [(id, now)] }
    | some lt =>
        if lt > 0 then { c2 with cache := c2.cache ++ [(id, now)] } else c2

/-- A request issued to the store driver. -/
inductive StoreCall where
  | deleteOne (id : String)
deriving DecidableEq, Repr

/-- Models `NiceCollection.delete`: one `delete_one` call filtered on the
identifier, followed by `self.cache.pop(id, None)`. The store's response
`ack` is never inspected. -/
def NCol.del (c : NCol) (_ack : Bool) (id : String) : NCol × List StoreCall :=
  ({ c with cache := c.cache.filter (fun p => p.1 ≠ id) }, [.deleteOne id])

/-! ## Concrete fixtures -/

/-- A schema whose every slot is a plain integer field with default `0`
and no alias, owned by the root document (route prefix `""`). -/
def envInt0 : Env := ⟨fun _ _ => ⟨.scalar (vint 0), Option.none⟩, fun _ => ""⟩

/-- The three-level graph of the path-correctness scenario: a map-of-nested
field `outer` on the root, key `key1`, holding a nested type with a
map-of-nested field `inner`, key `key2`. Both children are built the way
`FieldWithNestings.from_raw` builds them: mount name `""` and the synthetic
alias derived from the field name and the key. -/
def nested3 : NNode :=
  .childNesting
    (.childNesting .document "" (some (nestingChildAlias Option.none "outer" "key1")))
    "" (some (nestingChildAlias Option.none "inner" "key2"))

/-! ## Theorems for the claims -/

/-- C3: for every change-compiler scope whose body raises an exception,
`__aexit__` returns at once: no update command is compiled, no store call
is made (`sent = none`), the live graph is exactly the pre-scope graph, and
the exception propagates unchanged to the caller. -/
theorem c3_abort_on_exception (e : String) (cm : CM) (env : Env) (g : Graph)
    (sr : Except String Unit) :
    aexit (some e) cm env g sr = ⟨g, Option.none, some e⟩ := rfl

/-- C1 counterexample: the claim that a store failure at scope exit leaves
the live graph exactly as it was before the scope began compiling is false.
With one staged replacement and a failing store, the failure propagates,
yet the attribute has already been overwritten by the time of the send
attempt. -/
theorem c1_counterexample :
    ((aexit Option.none (CM.mk "" 0 emptyOps
        [CM.mk "x" 0 ⟨.val (vint 5), Option.none, [], []⟩ []])
        envInt0 [((0, "x"), vint 3)] (.error "boom")).graph
      ≠ [((0, "x"), vint 3)]) ∧
    (aexit Option.none (CM.mk "" 0 emptyOps
        [CM.mk "x" 0 ⟨.val (vint 5), Option.none, [], []⟩ []])
        envInt0 [((0, "x"), vint 3)] (.error "boom")
      = ⟨[((0, "x"), vint 5)],
         some (⟨[("x", vint 5)], [], [], []⟩, true), some "boom"⟩) := by
  constructor
  · decide
  · decide

/-- C1 (amended): a store failure at scope exit propagates unchanged to
the caller, but the live graph has already been mutated during
compilation, before the send attempt: the post-failure graph equals the
post-success graph. -/
theorem c1_amended_mutation_precedes_send (cm : CM) (env : Env) (g : Graph)
    (e : String) :
    ((aexit Option.none cm env g (.error e)).graph =
      (aexit Option.none cm env g (.ok ())).graph) ∧
    ((aexit Option.none cm env g (.error e)).sent ≠ Option.none →
      (aexit Option.none cm env g (.error e)).raised = some e) := by
  unfold aexit
  rcases hc : compileList env (iterLeaves cm) ⟨g, [], [], [], []⟩ with ⟨st, err⟩
  cases err with
  | none =>
    by_cases hb : cmdIsEmpty (buildCmd st) = true
    · simp [hc, hb]
    · simp [hc, hb]
  | some e2 => simp [hc]

/-- C1 witness: the amended theorem applied at the concrete scenario of
the counterexample. -/
theorem c1_witness :
    (aexit Option.none (CM.mk "" 0 emptyOps
        [CM.mk "x" 0 ⟨.val (vint 5), Option.none, [], []⟩ []])
        envInt0 [((0, "x"), vint 3)] (.error "boom")).raised = some "boom" :=
  (c1_amended_mutation_precedes_send
      (CM.mk "" 0 emptyOps [CM.mk "x" 0 ⟨.val (vint 5), Option.none, [], []⟩ []])
      envInt0 [((0, "x"), vint 3)] "boom").2 (by decide)

/-- C9: only leaf proxies are compiled at scope exit. A proxy that has
child proxies contributes only its subtree's leaves to `_iter_leaves`, so
whatever operations are staged directly on it are silently discarded: the
whole scope-exit outcome (graph, command, exception) is invariant under
replacing those staged operations by anything else. -/
theorem c9_internal_ops_discarded (exc : Option String) (rn : String)
    (ro : Nat) (rops : LeafOps) (n : String) (o : Nat) (ops1 ops2 : LeafOps)
    (c : CM) (cs siblings : List CM) (env : Env) (g : Graph)
    (sr : Except String Unit) :
    (iterLeaves (CM.mk rn ro rops (CM.mk n o ops1 (c :: cs) :: siblings)) =
      iterLeavesList (c :: cs) ++ iterLeavesList siblings) ∧
    (aexit exc (CM.mk rn ro rops (CM.mk n o ops1 (c :: cs) :: siblings)) env g sr =
      aexit exc (CM.mk rn ro rops (CM.mk n o ops2 (c :: cs) :: siblings)) env g sr) :=
  ⟨rfl, rfl⟩

/-- C10: `__iadd__` overwrites the staged delta, so of several `+=` on the
same attribute within one scope only the last delta is retained; at commit
the attribute is incremented by the final delta alone (10 + 4 = 14, not
10 + 3 + 4). -/
theorem c10_last_delta_wins :
    (∀ (ops : LeafOps) (v1 v2 : Val), (ops.iadd v1).iadd v2 = ops.iadd v2) ∧
    (aexit Option.none (CM.mk "" 0 emptyOps
        [CM.mk "x" 0 ((emptyOps.iadd (vint 3)).iadd (vint 4)) []])
        envInt0 [((0, "x"), vint 10)] (.ok ())
      = ⟨[((0, "x"), vint 14)],
         some (⟨[("x", vint 14)], [], [], []⟩, true), Option.none⟩) := by
  refine ⟨fun ops v1 v2 => rfl, by decide⟩

/-- Looking up a key in a list from which every pair with that key has
been filtered out yields nothing. -/
theorem lookup_filter_ne (l : List (String × Int)) (id : String) :
    (l.filter (fun p => p.1 ≠ id)).lookup id = Option.none := by
  induction l with
  | nil => rfl
  | cons p l ih =>
    rcases p with ⟨k, v⟩
    by_cases h : k = id
    · simpa [List.filter_cons, h] using ih
    · have hne : (id == k) = false := beq_eq_false_iff_ne.mpr (Ne.symm h)
      simp only [List.filter_cons, decide_not, h, decide_False, Bool.not_false,
        if_true, List.lookup, hne]
      simpa using ih

/-- C7: for every identifier and collection state, `delete(id)` issues
exactly one `delete_one` call to the store, evicts `id` from the cache,
and its entire outcome is independent of the store's response, which is
never inspected. -/
theorem c7_delete_evicts (c : NCol) (ack : Bool) (id : String) :
    ((NCol.del c ack id).2 = [StoreCall.deleteOne id]) ∧
    ((NCol.del c ack id).1.cache.lookup id = Option.none) ∧
    (∀ ack2 : Bool, NCol.del c ack id = NCol.del c ack2 id) :=
  ⟨rfl, lookup_filter_ne c.cache id, fun _ => rfl⟩

/-- C8: the cache-expiry scenario and the general sweep rules. With
lifetime 5, documents `A` and `B` looked up at time 0 and `A` again at
time 70: the sweep runs on that third access, evicts `B` (unused for
70 > 5) and keeps `A` (just refreshed). In general the sweep is a no-op
when the lifetime policy is `None` or `0` or when fewer than 60 time-units
passed since the previous check; when it runs it advances the check
timestamp and keeps exactly the entries whose time since last use does not
exceed the lifetime. -/
theorem c8_cache_expiry :
    (((NCol.find ⟨[], some 5, 0⟩ 0 "A").find 0 "B").find 70 "A"
        = ⟨[("A", 70)], some 5, 70⟩) ∧
    (∀ (now : Int) (c : NCol), c.cacheLifetime = Option.none →
        verifyCacheIntegrity now c = c) ∧
    (∀ (now : Int) (c : NCol), c.cacheLifetime = some 0 →
        verifyCacheIntegrity now c = c) ∧
    (∀ (now : Int) (c : NCol) (lt : Int), c.cacheLifetime = some lt →
        now - c.lastCacheCheck < 60 → verifyCacheIntegrity now c = c) ∧
    (∀ (now : Int) (c : NCol) (lt : Int), c.cacheLifetime = some lt →
        0 < lt → 60 ≤ now - c.lastCacheCheck →
        (verifyCacheIntegrity now c).lastCacheCheck = now ∧
        ∀ (id : String) (t : Int),
          (id, t) ∈ (verifyCacheIntegrity now c).cache ↔
            (id, t) ∈ c.cache ∧ ¬ (now - t > lt)) := by
  refine ⟨by decide, ?_, ?_, ?_, ?_⟩
  · intro now c h
    simp [verifyCacheIntegrity, h]
  · intro now c h
    simp [verifyCacheIntegrity, h]
  · intro now c lt h hlt
    rcases eq_or_ne lt 0 with h0 | h0
    · simp [verifyCacheIntegrity, h, h0]
    · simp [verifyCacheIntegrity, h, h0, hlt]
  · intro now c lt h hpos helapsed
    have h0 : lt ≠ 0 := by omega
    have hth : ¬ (now - c.lastCacheCheck < 60) := by omega
    constructor
    · simp [verifyCacheIntegrity, h, h0, hth]
    · intro id t
      simp [verifyCacheIntegrity, h, h0, hth, List.mem_filter]

/-- C8 witness: the sweep rules applied at concrete collections — the
throttle rule at time 1 and the eviction rule at time 70 on the scenario's
cache. -/
theorem c8_witness :
    (verifyCacheIntegrity 1 ⟨[("A", 0)], some 5, 0⟩ = ⟨[("A", 0)], some 5, 0⟩) ∧
    (("B", (0 : Int)) ∈ (verifyCacheIntegrity 70 ⟨[("A", 70), ("B", 0)], some 5, 0⟩).cache ↔
      (("B", (0 : Int)) ∈ [("A", (70 : Int)), ("B", 0)] ∧ ¬ ((70 : Int) - 0 > 5))) :=
  ⟨c8_cache_expiry.2.2.2.1 1 ⟨[("A", 0)], some 5, 0⟩ 5 rfl (by decide),
   (c8_cache_expiry.2.2.2.2 70 ⟨[("A", 70), ("B", 0)], some 5, 0⟩ 5 rfl
      (by decide) (by decide)).2 "B" 0⟩

/-- C2 counterexample: assigning a value equal to the field's default is
not a no-op write — `__aexit__` unconditionally records
`setters[route] = field.to_raw(to_set)`, and `Field.to_raw` maps a
default-equal value to `None`, so the command carries a replace section
binding the route to `None` (and requests upsert). -/
theorem c2_counterexample :
    (aexit Option.none (CM.mk "" 0 emptyOps
        [CM.mk "x" 0 ⟨.val (vint 0), Option.none, [], []⟩ []])
        envInt0 [((0, "x"), vint 0)] (.ok ())).sent
      = some (⟨[("x", vnone)], [], [], []⟩, true) := by decide

/-- C2 (amended): within a scope over a scalar field, assigning a value
equal to the field's default produces a replace entry whose wire value is
the absence marker `None` at the field's dotted path (not the absence of a
command section); assigning the explicit clear sentinel produces an unset
entry at the same path and resets the in-memory attribute to the field's
default. -/
theorem c2_amended_clear_vs_default (env : Env) (g : Graph) (o : Nat)
    (n : String) (d : Val) (rn : Option String)
    (hf : env.fieldOf o n = ⟨.scalar d, rn⟩) :
    (aexit Option.none (CM.mk "" o emptyOps
        [CM.mk n o ⟨.val d, Option.none, [], []⟩ []]) env g (.ok ())
      = ⟨setAttr g o n d,
         some (⟨[(env.pref o ++ pyOr rn n, vnone)], [], [], []⟩, true),
         Option.none⟩) ∧
    (aexit Option.none (CM.mk "" o emptyOps
        [CM.mk n o ⟨.clear, Option.none, [], []⟩ []]) env g (.ok ())
      = ⟨setAttr g o n d,
         some (⟨[], [(env.pref o ++ pyOr rn n, "")], [], []⟩, false),
         Option.none⟩) := by
  constructor
  · simp [aexit, iterLeaves, CM.children, iterLeavesList, iterLeavesFrom,
      compileList, applyLeaf, hf, FieldD.toRaw, FieldD.dflt, dinsert,
      buildCmd, cmdIsEmpty, upsertOf]
  · simp [aexit, iterLeaves, CM.children, iterLeavesList, iterLeavesFrom,
      compileList, applyLeaf, hf, FieldD.toRaw, FieldD.dflt, dinsert,
      buildCmd, cmdIsEmpty, upsertOf]

/-- C2 witness: the amended theorem applied to the integer field with
default `0`, cleared inside a scope. -/
theorem c2_witness :
    aexit Option.none (CM.mk "" 0 emptyOps
        [CM.mk "x" 0 ⟨.clear, Option.none, [], []⟩ []])
        envInt0 [((0, "x"), vint 7)] (.ok ())
      = ⟨[((0, "x"), vint 0)], some (⟨[], [("x", "")], [], []⟩, false),
         Option.none⟩ :=
  (c2_amended_clear_vs_default envInt0 [((0, "x"), vint 7)] 0 "x" (vint 0)
    Option.none rfl).2

/-- A leaf with nothing staged leaves the compilation state untouched. -/
theorem applyLeaf_emptyOps (env : Env) (st : CompState) (n : String)
    (o : Nat) (ch : List CM) :
    applyLeaf env st (CM.mk n o emptyOps ch) = .ok st := rfl

/-- Compiling leaves with no staged operations is the identity on the
compilation state and raises nothing. -/
theorem compileList_of_empty (env : Env) :
    ∀ (ls : List CM) (st : CompState), (∀ l ∈ ls, CM.ops l = emptyOps) →
      compileList env ls st = (st, Option.none) := by
  intro ls
  induction ls with
  | nil => intro st _; rfl
  | cons c cs ih =>
    intro st h
    rcases c with ⟨n, o, ops, ch⟩
    have hops : ops = emptyOps := h (CM.mk n o ops ch) (List.mem_cons_self _ _)
    subst hops
    rw [compileList, applyLeaf_emptyOps]
    exact ih st (fun l hl => h l (by simp [hl]))

/-- C6: the emitted update command requests upsert exactly when it has a
replace or add-unique section — a command of unset and/or pull sections
alone does not; and a scope in which nothing was staged builds no command,
issues no store request and leaves the graph untouched. -/
theorem c6_upsert_iff_and_noop :
    (∀ (cm : CM) (env : Env) (g : Graph) (sr : Except String Unit)
       (cmd : MongoCmd) (ups : Bool),
      (aexit Option.none cm env g sr).sent = some (cmd, ups) →
      (ups = true ↔ (cmd.set ≠ [] ∨ cmd.addToSet ≠ []))) ∧
    (∀ (cm : CM) (env : Env) (g : Graph) (sr : Except String Unit),
      (∀ l ∈ iterLeaves cm, CM.ops l = emptyOps) →
      aexit Option.none cm env g sr = ⟨g, Option.none, Option.none⟩) := by
  constructor
  · intro cm env g sr cmd ups h
    unfold aexit at h
    rcases hc : compileList env (iterLeaves cm) ⟨g, [], [], [], []⟩ with ⟨st, err⟩
    rw [hc] at h
    cases err with
    | some e => simp at h
    | none =>
      by_cases hb : cmdIsEmpty (buildCmd st) = true
      · simp [hb] at h
      · rcases st with ⟨sg, ss, su, sa, sr2⟩
        cases sr with
        | ok u =>
          simp [hb] at h
          rcases h with ⟨hcmd, hups⟩
          subst hcmd; subst hups
          cases ss <;> cases sa <;> simp [upsertOf, buildCmd]
        | error e =>
          simp [hb] at h
          rcases h with ⟨hcmd, hups⟩
          subst hcmd; subst hups
          cases ss <;> cases sa <;> simp [upsertOf, buildCmd]
  · intro cm env g sr h
    unfold aexit
    rw [compileList_of_empty env _ _ h]
    rfl

/-- C6 witness: the no-op rule applied to a scope that touched nothing,
and the upsert rule applied to a scope that staged one replace. -/
theorem c6_witness :
    (aexit Option.none (CM.mk "" 0 emptyOps []) envInt0 [] (.ok ())
        = ⟨[], Option.none, Option.none⟩) ∧
    (true = true ↔
      (([("x", vint 5)] : List (String × Val)) ≠ [] ∨
       ([] : List (String × Operand)) ≠ [])) :=
  ⟨c6_upsert_iff_and_noop.2 (CM.mk "" 0 emptyOps []) envInt0 [] (.ok ())
      (by simp [iterLeaves, CM.children, iterLeavesList]),
   c6_upsert_iff_and_noop.1
      (CM.mk "" 0 emptyOps [CM.mk "x" 0 ⟨.val (vint 5), Option.none, [], []⟩ []])
      envInt0 [((0, "x"), vint 3)] (.ok ())
      ⟨[("x", vint 5)], [], [], []⟩ true (by decide)⟩

/-- C4: the route prefix of a root document is `""`; for every node whose
route prefix is computable, a child nesting's route prefix is the parent's
route prefix followed by the child's wire name (alias if set and
non-empty, else mount name) and a dot; a nesting with no parent raises;
and in the three-level nested-map scenario the dotted path of a leaf field
is `outer.key1.inner.key2.field`. -/
theorem c4_route_resolution :
    (routePref .document = .ok "") ∧
    (∀ (p : NNode) (pp : String) (n : String) (a : Option String),
        routePref p = .ok pp →
        routePref (.childNesting p n a) =
          .ok (pp ++ NNode.wireName (.childNesting p n a) ++ ".")) ∧
    (∀ (n : String) (a : Option String),
        ∃ e, routePref (.orphanNesting n a) = .error e) ∧
    (routePref nested3 = .ok "outer.key1.inner.key2.") ∧
    (leafRoute nested3 Option.none "field" = .ok "outer.key1.inner.key2.field") := by
  refine ⟨rfl, ?_, fun n a => ⟨_, rfl⟩, rfl, rfl⟩
  intro p pp n a h
  cases p with
  | document =>
    have hpp : pp = "" := by simpa [routePref] using h.symm
    subst hpp
    simp [routePref, NNode.wireName]
  | orphanNesting m b => simp [routePref] at h
  | childNesting q m b =>
    simp only [routePref, NNode.wireName, h]

/-- C4 witness: the parent-prefix rule applied to a nesting mounted
directly on the root document. -/
theorem c4_witness :
    routePref (.childNesting .document "profile" Option.none) =
      .ok ("" ++ NNode.wireName (.childNesting .document "profile" Option.none) ++ ".") :=
  c4_route_resolution.2.1 .document "" "profile" Option.none rfl

/-- C5 counterexample: defaults are copied with `copy.copy`, which copies
only the top-level container. Stored default: a list (address 1) holding
an inner list (address 0). Two placeholder constructions yield the
distinct fresh top-level containers 2 and 3 — but the inner container 0 is
reachable from both instances, so a container nested inside the default is
shared between two documents, refuting "no container instance at any
nesting depth is ever shared". -/
theorem c5_counterexample :
    ((fromRawAbsentRef [Cell.container [], Cell.container [0]] 1).2 = 2) ∧
    ((fromRawAbsentRef
        (fromRawAbsentRef [Cell.container [], Cell.container [0]] 1).1 1).2 = 3) ∧
    (0 ∈ reachContainers
        (fromRawAbsentRef
          (fromRawAbsentRef [Cell.container [], Cell.container [0]] 1).1 1).1 5 2) ∧
    (0 ∈ reachContainers
        (fromRawAbsentRef
          (fromRawAbsentRef [Cell.container [], Cell.container [0]] 1).1 1).1 5 3) ∧
    ((2 : Nat) ≠ 3) := by decide

/-- C5 (amended): each deserialization of an absent wire value and each
placeholder construction yields a shallow copy of the field's default: the
two instances receive distinct, freshly allocated top-level containers,
but those containers hold exactly the stored default's element references,
so containers nested inside the default are shared between instances. -/
theorem c5_amended_shallow_copy (h : Heap) (a : Nat) (elems : List Nat)
    (hget : h[a]? = some (Cell.container elems)) :
    ((fromRawAbsentRef h a).2 = h.length) ∧
    ((fromRawAbsentRef (fromRawAbsentRef h a).1 a).2 = h.length + 1) ∧
    ((fromRawAbsentRef h a).2 ≠ (fromRawAbsentRef (fromRawAbsentRef h a).1 a).2) ∧
    ((fromRawAbsentRef (fromRawAbsentRef h a).1 a).1[h.length]?
        = some (Cell.container elems)) ∧
    ((fromRawAbsentRef (fromRawAbsentRef h a).1 a).1[h.length + 1]?
        = some (Cell.container elems)) := by
  have ha : a < h.length := by
    rcases List.getElem?_eq_some.mp hget with ⟨hh, -⟩
    exact hh
  have hget1 : (h ++ [Cell.container elems])[a]? = some (Cell.container elems) := by
    rw [List.getElem?_append_left ha]
    exact hget
  have hlen1 : (h ++ [Cell.container elems]).length = h.length + 1 := by
    simp
  refine ⟨?_, ?_, ?_, ?_, ?_⟩
  · simp [fromRawAbsentRef, defaultRef, copyShallow, hget]
  · simp [fromRawAbsentRef, defaultRef, copyShallow, hget, hget1, hlen1]
  · simp [fromRawAbsentRef, defaultRef, copyShallow, hget, hget1, hlen1]
  · simp only [fromRawAbsentRef, defaultRef, copyShallow, hget, hget1]
    rw [List.getElem?_append_left (by simp [hlen1, Nat.lt_succ_self])]
    exact List.getElem?_concat_length h (Cell.container elems)
  · simp only [fromRawAbsentRef, defaultRef, copyShallow, hget, hget1]
    have h2 := List.getElem?_concat_length (h ++ [Cell.container elems])
      (Cell.container elems)
    rwa [hlen1] at h2

/-- C5 witness: the amended theorem applied to the two-cell heap of the
counterexample. -/
theorem c5_witness :
    (fromRawAbsentRef [Cell.container [], Cell.container [0]] 1).2 ≠
      (fromRawAbsentRef
        (fromRawAbsentRef [Cell.container [], Cell.container [0]] 1).1 1).2 :=
  (c5_amended_shallow_copy [Cell.container [], Cell.container [0]] 1 [0] rfl).2.2.1

end MongoOdm
